import Mathlib

/-!
Verification development for the ilm-limiter program (src/ilm_limiter.py).

The Python source is shallowly embedded below: pure helpers become Lean
functions, the Elasticsearch client becomes an explicit `Cluster` oracle
record, Python exceptions become `Except String`, and Python `dict`s become
association lists kept in insertion order.  Machine integers do not occur in
the source (Python integers are unbounded), so byte counts are `Int`/`Nat`
and fractional size prefixes are `Rat`.  Python string primitives used by
the source (`str.lower`, `str.endswith`, slicing, `float()` whitespace
stripping) are implemented character-by-character so that every definition
evaluates inside the kernel.
-/

/-- ASCII lowercasing of one character, the effect of Python `str.lower` on
the ASCII size strings handled by the program. -/
def lowerChar (c : Char) : Char :=
  if 'A' ≤ c ∧ c ≤ 'Z' then Char.ofNat (c.toNat + 32) else c

/-- Python `str.lower` (ASCII fragment). -/
def pyLower (s : String) : String := (s.data.map lowerChar).asString

/-- Python `str.endswith`. -/
def pyEndsWith (s t : String) : Bool :=
  s.data.length ≥ t.data.length ∧ s.data.drop (s.data.length - t.data.length) = t.data

/-- Python slice `s[0:-n]` for `n > 0`: all but the last `n` characters. -/
def pyDropRight (s : String) (n : Nat) : String :=
  (s.data.take (s.data.length - n)).asString

/-- Strip leading and trailing whitespace, as Python `float()` does. -/
def pyStrip (l : List Char) : List Char :=
  ((l.dropWhile Char.isWhitespace).reverse.dropWhile Char.isWhitespace).reverse

/-- An exact decimal value `num / 10 ^ pow10`, the result of parsing a plain
decimal literal; the representation Python `float()` holds exactly for the
short size prefixes handled by the program. -/
structure PyDecimal where
  num : Int
  pow10 : Nat
deriving DecidableEq, Repr

/-- Value of a list of decimal digit characters, most significant first. -/
def digitsVal (ds : List Char) : Nat :=
  ds.foldl (fun n c => n * 10 + (c.toNat - 48)) 0

/-- Model of Python `float()` restricted to plain decimal literals: optional
surrounding whitespace, an optional sign, then digits with an optional
fractional part (at least one digit overall).  Exponent notation and the
special values inf/nan accepted by Python `float()` never arise from size
strings and are left out of the model (they would parse to `none` here). -/
def parsePyFloat (s : String) : Option PyDecimal :=
  let cs := pyStrip s.data
  let signed : Int × List Char :=
    match cs with
    | c :: rest => if c = '-' then (-1, rest) else if c = '+' then (1, rest) else (1, cs)
    | [] => (1, [])
  let sgn := signed.1
  let cs2 := signed.2
  let intDigits := cs2.takeWhile Char.isDigit
  let rest := cs2.dropWhile Char.isDigit
  match rest with
  | [] => if intDigits.isEmpty then none else some ⟨sgn * (digitsVal intDigits : Int), 0⟩
  | '.' :: frac =>
    if frac.all Char.isDigit ∧ ¬(intDigits.isEmpty ∧ frac.isEmpty) then
      some ⟨sgn * ((digitsVal intDigits : Int) * 10 ^ frac.length + (digitsVal frac : Int)),
            frac.length⟩
    else none
  | _ => none

/-- `int(d * m)` for a parsed decimal `d` and integer factor `m`: the exact
product truncated toward zero, which is what Python computes whenever the
float product is exact (always the case for the short size prefixes and
1024-power factors used here). -/
def pyFloatTimesInt (d : PyDecimal) (m : Int) : Int :=
  (d.num * m).tdiv ((10 : Int) ^ d.pow10)

/-- Embedding of `convert_size_to_bytes`: walk the unit list kb, mb, gb, tb
(position i worth 1024^(i+1)); on the first unit that the lowercased input
ends with, parse the prefix as a float and truncate the product to an
integer.  `none` models the raised `ValueError` (no recognized suffix, or an
unparseable numeric prefix). -/
def convert_size_to_bytes (size : String) : Option Int :=
  let lower := pyLower size
  if pyEndsWith lower "kb" then
    (parsePyFloat (pyDropRight size 2)).map (fun d => pyFloatTimesInt d (1024 ^ 1))
  else if pyEndsWith lower "mb" then
    (parsePyFloat (pyDropRight size 2)).map (fun d => pyFloatTimesInt d (1024 ^ 2))
  else if pyEndsWith lower "gb" then
    (parsePyFloat (pyDropRight size 2)).map (fun d => pyFloatTimesInt d (1024 ^ 3))
  else if pyEndsWith lower "tb" then
    (parsePyFloat (pyDropRight size 2)).map (fun d => pyFloatTimesInt d (1024 ^ 4))
  else none

/-- The `Ilm_limiter.global_lifecycle_phases` class constant: ILM phases in
their actual order; the last phase in this list is ignored by enforcement. -/
def global_lifecycle_phases : List String :=
  ["hot", "warm", "cold", "frozen", "delete"]

/-- The step triple returned by `get_index_current_ilm_step` (keys phase,
action, name of the dict built from the explain-lifecycle response). -/
structure IlmStep where
  phase : String
  action : String
  name : String
deriving DecidableEq, Repr

/-- Oracle record standing for the live Elasticsearch cluster: each field is
one of the read or write endpoints the program calls.  `moveOk i = false`
means `ilm.move_to_step` on index `i` raises `BadRequestError` (ILM moved or
deleted the index concurrently). -/
structure Cluster where
  clusterPrivsOk : Bool
  indexPrivsOk : List String → Bool
  ilmStep : String → IlmStep
  lifecycleDate : String → Int
  datasetSize : String → Nat
  moveOk : String → Bool

/-- What happened to one index inside the `check_lifecycle_phase` loop. -/
inductive StepOutcome
  | underLimit
  | moved
  | raced
  | dryRunSkip
  | nonSteady
deriving DecidableEq, Repr

/-- Trace entry for one index of the `check_lifecycle_phase` walk: the
index, its observed step, its dataset size, the running total after adding
that size, and the branch the loop body took. -/
structure WalkRow where
  index : String
  step : IlmStep
  usage : Int
  cumSum : Int
  outcome : StepOutcome
deriving DecidableEq, Repr

/-- Stable insertion of `x` into a list already sorted by descending `key`:
`x` goes before the first element whose key is not larger, so elements with
equal keys keep their original relative order. -/
def insertDescBy {α : Type} (key : α → Int) (x : α) : List α → List α
  | [] => [x]
  | y :: ys => if key y ≤ key x then x :: y :: ys else y :: insertDescBy key x ys

/-- Stable descending sort by an integer key: the effect of Python
`sorted(..., key=key, reverse=True)`. -/
def sortDescBy {α : Type} (key : α → Int) : List α → List α
  | [] => []
  | x :: xs => insertDescBy key x (sortDescBy key xs)

/-- The body of the `check_lifecycle_phase` loop over the date-sorted index
list, carrying the running `disk_usage_phase_sum`: fetch the dataset size,
add it to the sum, and on overflow either request the move (when the step is
complete/complete: succeeding or racing against ILM per `moveOk`, or skipped
in dry-run mode) or record the non-steady error. -/
def walkRows (c : Cluster) (dryRun : Bool) (limit : Int) :
    Int → List (String × IlmStep) → List WalkRow
  | _, [] => []
  | sum, (idx, st) :: rest =>
    let usage : Int := (c.datasetSize idx : Int)
    let sum2 := sum + usage
    let outcome :=
      if limit < sum2 then
        if st.action = "complete" ∧ st.name = "complete" then
          if dryRun then StepOutcome.dryRunSkip
          else if c.moveOk idx then StepOutcome.moved
          else StepOutcome.raced
        else StepOutcome.nonSteady
      else StepOutcome.underLimit
    { index := idx, step := st, usage := usage, cumSum := sum2, outcome := outcome } ::
      walkRows c dryRun limit sum2 rest

/-- Embedding of `check_lifecycle_phase`: sort the phase's indexes by
lifecycle date, most recent first (Python `sorted(..., reverse=True)`), then
walk them with a running size total starting at 0. -/
def check_lifecycle_phase (c : Cluster) (dryRun : Bool) (limit : Int)
    (entries : List (String × IlmStep)) : List WalkRow :=
  walkRows c dryRun limit 0 (sortDescBy (fun e => c.lifecycleDate e.1) entries)

/-- An index is an eviction candidate when the loop entered the over-limit
branch (any outcome other than `underLimit`). -/
def isCandidate : StepOutcome → Bool
  | .underLimit => false
  | _ => true

/-- A `move_to_step` request as issued by the source: the index, the exact
observed current step, and the target phase. -/
structure MoveCmd where
  index : String
  current_step : IlmStep
  next_phase : String
deriving DecidableEq, Repr

/-- The phase-transition commands actually sent to the cluster during one
phase walk: one per row that entered the `move_to_step` call (outcomes
`moved` and `raced`; `raced` is a command that was issued and rejected). -/
def issuedMoves (next : String) (rows : List WalkRow) : List MoveCmd :=
  rows.filterMap fun r =>
    match r.outcome with
    | .moved => some ⟨r.index, r.step, next⟩
    | .raced => some ⟨r.index, r.step, next⟩
    | _ => none

/-- The decision the loop took for an index, independent of request
execution: keep in phase, advance to the next phase, or blocked because the
step is not the steady state. -/
inductive Decision
  | keep
  | advance
  | blockedNonSteady
deriving DecidableEq, Repr

/-- Collapse an outcome to its decision: `moved`, `raced` and `dryRunSkip`
all stem from the same advance decision and differ only in execution. -/
def StepOutcome.decision : StepOutcome → Decision
  | .underLimit => .keep
  | .moved => .advance
  | .raced => .advance
  | .dryRunSkip => .advance
  | .nonSteady => .blockedNonSteady

/-- The decision-relevant content of a walk row: everything that is logged
and decided, without the execution detail of the command. -/
def WalkRow.shape (r : WalkRow) : String × IlmStep × Int × Int × Decision :=
  (r.index, r.step, r.usage, r.cumSum, r.outcome.decision)

/-- A steady complete/complete step used by the concrete test fixtures. -/
def steadyStep (phase : String) : IlmStep :=
  { phase := phase, action := "complete", name := "complete" }

/-- Concrete cluster for the worked example of the spec: indexes A, B, C
have lifecycle dates 3, 2, 1 and dataset size 5 each. -/
def sampleCluster : Cluster where
  clusterPrivsOk := true
  indexPrivsOk := fun _ => true
  ilmStep := fun _ => steadyStep "warm"
  lifecycleDate := fun n => if n = "A" then 3 else if n = "B" then 2 else 1
  datasetSize := fun _ => 5
  moveOk := fun _ => true

/-- The worked example's warm-phase group, deliberately out of date order to
exercise the sort. -/
def sampleEntries : List (String × IlmStep) :=
  [("B", steadyStep "warm"), ("C", steadyStep "warm"), ("A", steadyStep "warm")]

/-- Validated limits object attached to a phase by
`decode_lifecycle_phases`: the original `max_size` string extended with the
computed `max_size_bytes` (`limits | {"max_size_bytes": ...}`; the schema
admits no key besides `max_size` in the original object). -/
structure PhaseLimits where
  max_size : String
  max_size_bytes : Int
deriving DecidableEq, Repr

/-- One phase definition of a lifecycle policy.  `data` stands for the
phase's own configuration (actions, min_age, ...), which the program never
inspects or modifies; `limits` is the key `decode_lifecycle_phases` may
attach. -/
structure PhaseDef where
  data : String
  limits : Option PhaseLimits := none
deriving DecidableEq, Repr

/-- The value under one phase name inside `_meta.ilm-limiter.phases`:
an optional `max_size` entry (missing means the schema key is absent) and a
flag recording whether the object carries any other key (the schema rejects
extras). -/
structure LimiterPhaseVal where
  max_size : Option String
  extraKeys : Bool := false
deriving DecidableEq, Repr

/-- The `_meta.ilm-limiter` object: its optional `phases` mapping in
insertion order, and whether any unexpected sibling key is present. -/
structure RawLimiter where
  phasesField : Option (List (String × LimiterPhaseVal))
  extraKeys : Bool := false
deriving DecidableEq, Repr

/-- Shape class of one extra `_meta` entry, as far as the schema cares:
`Or(dict, str, list)` accepts the first three and rejects anything else. -/
inductive MetaExtra
  | mdict
  | mstr
  | mlist
  | mother
deriving DecidableEq, Repr

/-- The `_meta` object: the optional `ilm-limiter` entry plus the shape
classes of its remaining entries. -/
structure RawMeta where
  limiter : Option RawLimiter
  extras : List MetaExtra := []
deriving DecidableEq, Repr

/-- The `policy` object of one lifecycle: optional `_meta`, the `phases`
dict in insertion order, and whether any unexpected top-level key is
present.  (A policy whose `phases` value is not a dict cannot be expressed
here; such a policy fails the schema and never reaches the rest of the
program.) -/
structure RawPolicyBody where
  meta : Option RawMeta
  phases : List (String × PhaseDef)
  extraKeys : Bool := false
deriving DecidableEq, Repr

/-- One entry of the `ilm.get_lifecycle` response: the policy body and the
index names under `in_use_by.indices`. -/
structure RawLifecycle where
  policy : RawPolicyBody
  in_use_by_indices : List String
deriving DecidableEq, Repr

/-- The schema library treats a callable validator as satisfied when the
call raises nothing and returns a truthy value; `convert_size_to_bytes`
returning 0 is falsy and fails validation. -/
def truthyBytes (s : String) : Bool :=
  match convert_size_to_bytes s with
  | some n => decide (n ≠ 0)
  | none => false

/-- Schema check for one `ilm-limiter.phases` entry: exactly the key
`max_size`, whose value `convert_size_to_bytes` accepts. -/
def limiterEntryOk (v : LimiterPhaseVal) : Bool :=
  !v.extraKeys &&
    (match v.max_size with
     | some s => truthyBytes s
     | none => false)

/-- Embedding of `is_lifecycle_limited`: the schema
`{"_meta": {"ilm-limiter": {"phases": {str: {"max_size": convert_size_to_bytes}}},
Optional(str): Or(dict, str, list)}, "phases": dict}` as a Boolean check on
the policy body. -/
def is_lifecycle_limited (lc : RawLifecycle) : Bool :=
  !lc.policy.extraKeys &&
    (match lc.policy.meta with
     | none => false
     | some m =>
       (m.extras.all fun e =>
          match e with
          | .mdict => true
          | .mstr => true
          | .mlist => true
          | .mother => false) &&
         (match m.limiter with
          | none => false
          | some lim =>
            !lim.extraKeys &&
              (match lim.phasesField with
               | none => false
               | some entries => entries.all fun q => limiterEntryOk q.2)))

/-- Attach a limits object to the named phase, leaving every other phase
entry untouched (`lifecycle_properties["policy"]["phases"][phase]["limits"] = ...`). -/
def updatePhaseLimits (phases : List (String × PhaseDef)) (phase : String)
    (l : PhaseLimits) : List (String × PhaseDef) :=
  phases.map fun q => if q.1 = phase then (q.1, { q.2 with limits := some l }) else q

/-- The loop of `decode_lifecycle_phases` over the `_meta` limiter entries:
a limit whose phase exists gets converted and attached; a limit whose phase
is absent only produces a warning line.  An `Except.error` models an
exception escaping the loop (impossible for schema-validated input). -/
def decodeGo (name : String) (entries : List (String × LimiterPhaseVal))
    (warns : List String) (phases : List (String × PhaseDef)) :
    Except String (List String × List (String × PhaseDef)) :=
  match entries with
  | [] => .ok (warns, phases)
  | (phase, v) :: rest =>
    if phases.any fun q => q.1 = phase then
      match v.max_size with
      | none => .error ("missing key max_size in limits of phase " ++ phase)
      | some s =>
        match convert_size_to_bytes s with
        | none => .error ("could not convert " ++ s ++ " to bytes")
        | some b => decodeGo name rest warns (updatePhaseLimits phases phase ⟨s, b⟩)
    else
      decodeGo name rest
        (warns ++ ["lifecycle " ++ name ++ " has no phase " ++ phase ++ " but limits"])
        phases

/-- Embedding of `decode_lifecycle_phases`: merge the `_meta` limits into
the policy's phases; returns the warning lines and the updated lifecycle. -/
def decode_lifecycle_phases (name : String) (lc : RawLifecycle) :
    Except String (List String × RawLifecycle) :=
  match lc.policy.meta with
  | none => .error "missing key _meta"
  | some m =>
    match m.limiter with
    | none => .error "missing key ilm-limiter"
    | some lim =>
      match lim.phasesField with
      | none => .error "missing key phases"
      | some entries =>
        match decodeGo name entries [] lc.policy.phases with
        | .error e => .error e
        | .ok (w, ph) =>
          .ok (w, { lc with policy := { lc.policy with phases := ph } })

/-- The filtered-and-decoded lifecycles, one entry per policy that passed
`is_lifecycle_limited`, in input order (the dict comprehension of
`get_lifecycles`). -/
def getLifecyclesGo :
    List (String × RawLifecycle) →
      Except String (List (String × (List String × RawLifecycle)))
  | [] => .ok []
  | p :: ps =>
    match decode_lifecycle_phases p.1 p.2 with
    | .error e => .error e
    | .ok wl =>
      match getLifecyclesGo ps with
      | .error e => .error e
      | .ok rest => .ok ((p.1, wl) :: rest)

/-- Embedding of `get_lifecycles`: keep only the policies with a valid
ilm-limiter configuration, then decode each one. -/
def get_lifecycles (pols : List (String × RawLifecycle)) :
    Except String (List (String × (List String × RawLifecycle))) :=
  getLifecyclesGo (pols.filter fun p => is_lifecycle_limited p.2)

/-- Embedding of `check_cluster_privileges`. -/
def check_cluster_privileges (c : Cluster) : Except String Unit :=
  if c.clusterPrivsOk then .ok ()
  else .error "user is missing cluster privileges"

/-- Embedding of `check_index_privileges`: `if indexes:` guards both the
privilege query and the possible error, so an empty list asks the cluster
nothing.  The first component lists the privilege queries performed. -/
def check_index_privileges (c : Cluster) (indexes : List String) :
    List (List String) × Except String Unit :=
  match indexes with
  | [] => ([], .ok ())
  | _ :: _ =>
    ([indexes],
     if c.indexPrivsOk indexes then .ok ()
     else .error ("user is missing index privileges on " ++ String.intercalate "," indexes))

/-- Embedding of `get_next_lifecycle_phase`: the first phase after
`current` in the global order that the policy defines; a `ValueError`
when none exists. -/
def get_next_lifecycle_phase (phases : List (String × PhaseDef))
    (current : String) : Except String String :=
  match global_lifecycle_phases.findIdx? (fun p => p = current) with
  | none => .error ("phase " ++ current ++ " is not in list")
  | some i =>
    match (global_lifecycle_phases.drop (i + 1)).find?
        (fun p => phases.any fun q => q.1 = p) with
    | some p => .ok p
    | none => .error ("cannot determine successor of phase " ++ current)

/-- `phases.setdefault(phase, {})[index_name] = step`: append the index to
the phase's group, creating the group at the end on first use (index names
coming from `in_use_by` are distinct, so overwriting never occurs). -/
def addToGroup (groups : List (String × List (String × IlmStep)))
    (phase idx : String) (st : IlmStep) :
    List (String × List (String × IlmStep)) :=
  if groups.any fun g => g.1 = phase then
    groups.map fun g => if g.1 = phase then (g.1, g.2 ++ [(idx, st)]) else g
  else groups ++ [(phase, [(idx, st)])]

/-- Embedding of `get_indexes_in_phases`: query each index's current step
and group the indexes by the step's phase, in first-appearance order. -/
def get_indexes_in_phases (c : Cluster) (names : List String) :
    List (String × List (String × IlmStep)) :=
  names.foldl (fun gs n => addToGroup gs (c.ilmStep n).phase n (c.ilmStep n)) []

/-- `lifecycle_phases_indexes.get(phase, {})`. -/
def lookupGroup (groups : List (String × List (String × IlmStep)))
    (phase : String) : List (String × IlmStep) :=
  match groups.find? fun g => g.1 = phase with
  | some g => g.2
  | none => []

/-- Record of one enforced phase: the phase, the successor passed to the
move commands, and the walk trace. -/
structure PhaseReport where
  phase : String
  next : String
  rows : List WalkRow
deriving DecidableEq, Repr

/-- The per-phase loop of `check_lifecycle` over the known phases in
reverse global order: unlimited phases are only logged; for a limited phase
the successor lookup may raise (aborting the remaining iterations, as the
uncaught `ValueError` does in the source) and otherwise the phase is
walked. -/
def check_phases (c : Cluster) (dryRun : Bool)
    (allPhases : List (String × PhaseDef))
    (groups : List (String × List (String × IlmStep))) :
    List (String × PhaseDef) → Except String (List PhaseReport)
  | [] => .ok []
  | (pn, pd) :: rest =>
    match pd.limits with
    | none => check_phases c dryRun allPhases groups rest
    | some lim =>
      match get_next_lifecycle_phase allPhases pn with
      | .error e => .error e
      | .ok nxt =>
        match check_phases c dryRun allPhases groups rest with
        | .error e => .error e
        | .ok more =>
          .ok ({ phase := pn, next := nxt,
                 rows := check_lifecycle_phase c dryRun lim.max_size_bytes
                   (lookupGroup groups pn) } :: more)

/-- Embedding of `check_lifecycle`: index privileges, grouping by phase,
restriction to the known non-terminal phases
(`global_lifecycle_phases[:-1]`), then the reverse-order phase loop. -/
def check_lifecycle (c : Cluster) (dryRun : Bool) (lc : RawLifecycle) :
    Except String (List PhaseReport) :=
  match (check_index_privileges c lc.in_use_by_indices).2 with
  | .error e => .error e
  | .ok _ =>
    let groups := get_indexes_in_phases c lc.in_use_by_indices
    let known := lc.policy.phases.filter fun p =>
      global_lifecycle_phases.dropLast.contains p.1
    let ordered := sortDescBy
      (fun p => (global_lifecycle_phases.findIdx (fun q => q = p.1) : Int)) known
    check_phases c dryRun lc.policy.phases groups ordered

/-- Embedding of `run_limits`: cluster privileges (fatal on failure), the
filtered lifecycles, then one `check_lifecycle` per policy with its
`ValueError` caught and logged (`except ValueError: logging.error`), so each
policy contributes its own `Except` result. -/
def run_limits (c : Cluster) (dryRun : Bool)
    (pols : List (String × RawLifecycle)) :
    Except String (List (String × Except String (List PhaseReport))) :=
  match check_cluster_privileges c with
  | .error e => .error e
  | .ok _ =>
    match get_lifecycles pols with
    | .error e => .error e
    | .ok ls => .ok (ls.map fun x => (x.1, check_lifecycle c dryRun x.2.2))

/-- The phases for which `check_lifecycle` reached `check_lifecycle_phase`. -/
def phasesChecked (res : Except String (List PhaseReport)) : List String :=
  match res with
  | .error _ => []
  | .ok rs => rs.map PhaseReport.phase

/-- The move commands of one phase report. -/
def reportMoves (p : PhaseReport) : List MoveCmd := issuedMoves p.next p.rows

/-- All move commands sent during a whole `run_limits` invocation. -/
def runMoves (r : Except String (List (String × Except String (List PhaseReport)))) :
    List MoveCmd :=
  match r with
  | .error _ => []
  | .ok ls =>
    (ls.map fun x =>
      match x.2 with
      | .error _ => []
      | .ok rs => (rs.map reportMoves).flatten).flatten

/-- The decision-relevant content of a phase report. -/
def PhaseReport.shape (p : PhaseReport) :
    String × String × List (String × IlmStep × Int × Int × Decision) :=
  (p.phase, p.next, p.rows.map WalkRow.shape)

/-- The decision-relevant content of a whole run result. -/
def runShape (r : Except String (List (String × Except String (List PhaseReport)))) :
    Except String (List (String × Except String
      (List (String × String × List (String × IlmStep × Int × Int × Decision))))) :=
  Except.map (List.map fun x =>
    (x.1, Except.map (List.map PhaseReport.shape) x.2)) r

/-- Decidable equality for `Except` results, used to evaluate the embedded
program on concrete inputs. -/
instance {ε α : Type} [DecidableEq ε] [DecidableEq α] : DecidableEq (Except ε α) :=
  fun a b =>
    match a, b with
    | .error e, .error f =>
      if h : e = f then isTrue (by rw [h]) else isFalse (by simp [h])
    | .error _, .ok _ => isFalse (by simp)
    | .ok _, .error _ => isFalse (by simp)
    | .ok x, .ok y =>
      if h : x = y then isTrue (by rw [h]) else isFalse (by simp [h])

/-- A policy with limited hot and warm phases and no later phase at all:
its most advanced configured phase (warm) has no reachable successor. -/
def rawPolC2 : RawLifecycle :=
  { policy :=
      { meta := some
          { limiter := some
              { phasesField := some
                  [("warm", { max_size := some "1kb" }),
                   ("hot", { max_size := some "1kb" })] } },
        phases := [("hot", { data := "hotdef" }), ("warm", { data := "warmdef" })] },
    in_use_by_indices := [] }

/-- `rawPolC2` after `decode_lifecycle_phases`. -/
def decodedPolC2 : RawLifecycle :=
  { policy :=
      { meta := rawPolC2.policy.meta,
        phases := [("hot", { data := "hotdef", limits := some ⟨"1kb", 1024⟩ }),
                   ("warm", { data := "warmdef", limits := some ⟨"1kb", 1024⟩ })] },
    in_use_by_indices := [] }

/-- A well-formed policy: limited hot phase with a configured delete phase
as its successor. -/
def rawPolOk : RawLifecycle :=
  { policy :=
      { meta := some
          { limiter := some
              { phasesField := some [("hot", { max_size := some "1kb" })] } },
        phases := [("hot", { data := "hotdef" }), ("delete", { data := "deldef" })] },
    in_use_by_indices := [] }

/-- `rawPolOk` after `decode_lifecycle_phases`. -/
def decodedPolOk : RawLifecycle :=
  { policy :=
      { meta := rawPolOk.policy.meta,
        phases := [("hot", { data := "hotdef", limits := some ⟨"1kb", 1024⟩ }),
                   ("delete", { data := "deldef" })] },
    in_use_by_indices := [] }

/-- A policy with no `_meta` at all: fails the limiter schema. -/
def rawPolNoMeta : RawLifecycle :=
  { policy := { meta := none, phases := [("hot", { data := "hotdef" })] },
    in_use_by_indices := [] }

/-- A policy declaring a limit on a phase (cold) it does not define. -/
def rawPolDangling : RawLifecycle :=
  { policy :=
      { meta := some
          { limiter := some
              { phasesField := some [("cold", { max_size := some "1kb" })] } },
        phases := [("hot", { data := "hotdef" }), ("delete", { data := "deldef" })] },
    in_use_by_indices := [] }

/-- Cluster for the mixed-steadiness example: index N is mid-shrink and has
the more recent lifecycle date, index S is in its steady state. -/
def mixedCluster : Cluster where
  clusterPrivsOk := true
  indexPrivsOk := fun _ => true
  ilmStep := fun n =>
    if n = "N" then { phase := "warm", action := "shrink", name := "shrink" }
    else steadyStep "warm"
  lifecycleDate := fun n => if n = "N" then 3 else 1
  datasetSize := fun _ => 5
  moveOk := fun _ => true

/-- Warm-phase group holding a non-steady newer index and a steady older
one. -/
def mixedEntries : List (String × IlmStep) :=
  [("N", { phase := "warm", action := "shrink", name := "shrink" }),
   ("S", steadyStep "warm")]

/-- A policy that also configures a limit on the terminal delete phase. -/
def rawPolDeleteLim : RawLifecycle :=
  { policy :=
      { meta := some
          { limiter := some
              { phasesField := some
                  [("hot", { max_size := some "1kb" }),
                   ("delete", { max_size := some "1kb" })] } },
        phases := [("hot", { data := "hotdef" }), ("delete", { data := "deldef" })] },
    in_use_by_indices := [] }

/-- `rawPolDeleteLim` after `decode_lifecycle_phases`: the delete phase
carries a limits object as well. -/
def decodedPolDeleteLim : RawLifecycle :=
  { policy :=
      { meta := rawPolDeleteLim.policy.meta,
        phases := [("hot", { data := "hotdef", limits := some ⟨"1kb", 1024⟩ }),
                   ("delete", { data := "deldef", limits := some ⟨"1kb", 1024⟩ })] },
    in_use_by_indices := [] }

theorem walkRows_mem_spec (c : Cluster) (dryRun : Bool) (limit : Int) :
    ∀ (entries : List (String × IlmStep)) (sum : Int) (r : WalkRow),
      r ∈ walkRows c dryRun limit sum entries →
      r.usage = (c.datasetSize r.index : Int) ∧
      r.outcome =
        (if limit < r.cumSum then
          (if r.step.action = "complete" ∧ r.step.name = "complete" then
            (if dryRun then StepOutcome.dryRunSkip
             else if c.moveOk r.index then StepOutcome.moved
             else StepOutcome.raced)
           else StepOutcome.nonSteady)
         else StepOutcome.underLimit) := by
  intro entries
  induction entries with
  | nil => intro sum r hr; simp [walkRows] at hr
  | cons e rest ih =>
    intro sum r hr
    obtain ⟨idx, st⟩ := e
    simp only [walkRows, List.mem_cons] at hr
    rcases hr with h | h
    · subst h; exact ⟨rfl, rfl⟩
    · exact ih _ r h

theorem walkRows_cumSum_ge (c : Cluster) (dryRun : Bool) (limit : Int) :
    ∀ (entries : List (String × IlmStep)) (sum : Int) (r : WalkRow),
      r ∈ walkRows c dryRun limit sum entries → sum ≤ r.cumSum := by
  intro entries
  induction entries with
  | nil => intro sum r hr; simp [walkRows] at hr
  | cons e rest ih =>
    intro sum r hr
    obtain ⟨idx, st⟩ := e
    simp only [walkRows, List.mem_cons] at hr
    rcases hr with h | h
    · subst h
      exact le_add_of_nonneg_right (Int.natCast_nonneg _)
    · exact le_trans (le_add_of_nonneg_right (Int.natCast_nonneg _)) (ih _ r h)

theorem walkRows_length (c : Cluster) (dryRun : Bool) (limit : Int) :
    ∀ (entries : List (String × IlmStep)) (sum : Int),
      (walkRows c dryRun limit sum entries).length = entries.length := by
  intro entries
  induction entries with
  | nil => intro sum; rfl
  | cons e rest ih =>
    intro sum
    obtain ⟨idx, st⟩ := e
    simp only [walkRows, List.length_cons, ih]

theorem insertDescBy_length {α : Type} (key : α → Int) (x : α) :
    ∀ l : List α, (insertDescBy key x l).length = l.length + 1 := by
  intro l
  induction l with
  | nil => rfl
  | cons y ys ih =>
    simp only [insertDescBy]
    split
    · simp
    · simp [ih]

theorem sortDescBy_length {α : Type} (key : α → Int) :
    ∀ l : List α, (sortDescBy key l).length = l.length := by
  intro l
  induction l with
  | nil => rfl
  | cons x xs ih => simp [sortDescBy, insertDescBy_length, ih]

theorem mem_insertDescBy {α : Type} (key : α → Int) (x : α) :
    ∀ (l : List α) (y : α), y ∈ insertDescBy key x l ↔ y = x ∨ y ∈ l := by
  intro l
  induction l with
  | nil => intro y; simp [insertDescBy]
  | cons z zs ih =>
    intro y
    simp only [insertDescBy]
    split
    · simp
    · simp only [List.mem_cons, ih]
      tauto

theorem mem_sortDescBy {α : Type} (key : α → Int) :
    ∀ (l : List α) (y : α), y ∈ sortDescBy key l ↔ y ∈ l := by
  intro l
  induction l with
  | nil => intro y; simp [sortDescBy]
  | cons x xs ih =>
    intro y
    simp only [sortDescBy, mem_insertDescBy, List.mem_cons, ih]

theorem check_lifecycle_phase_length (c : Cluster) (dryRun : Bool) (limit : Int)
    (entries : List (String × IlmStep)) :
    (check_lifecycle_phase c dryRun limit entries).length = entries.length := by
  simp [check_lifecycle_phase, walkRows_length, sortDescBy_length]

theorem walkRows_candidate_iff (c : Cluster) (dryRun : Bool) (limit : Int)
    (entries : List (String × IlmStep)) (sum : Int) (r : WalkRow)
    (hr : r ∈ walkRows c dryRun limit sum entries) :
    isCandidate r.outcome = true ↔ limit < r.cumSum := by
  have h := (walkRows_mem_spec c dryRun limit entries sum r hr).2
  by_cases h1 : limit < r.cumSum
  · simp only [h1, if_true] at h
    constructor
    · intro _; exact h1
    · intro _
      rw [h]
      split
      · split <;> [skip; split] <;> rfl
      · rfl
  · simp only [h1, if_false] at h
    rw [h]
    simp [isCandidate, h1]

theorem walkRows_cumSum_mono (c : Cluster) (dryRun : Bool) (limit : Int) :
    ∀ (entries : List (String × IlmStep)) (sum : Int) (i j : Nat)
      (hi : i < (walkRows c dryRun limit sum entries).length)
      (hj : j < (walkRows c dryRun limit sum entries).length),
      i ≤ j →
      ((walkRows c dryRun limit sum entries).get ⟨i, hi⟩).cumSum ≤
        ((walkRows c dryRun limit sum entries).get ⟨j, hj⟩).cumSum := by
  intro entries
  induction entries with
  | nil => intro sum i j hi hj _; simp [walkRows] at hi
  | cons e rest ih =>
    intro sum i j hi hj hij
    obtain ⟨idx, st⟩ := e
    match i, j with
    | 0, 0 => exact le_refl _
    | 0, Nat.succ n =>
      have hj' : n < (walkRows c dryRun limit (sum + (c.datasetSize idx : Int)) rest).length :=
        Nat.lt_of_succ_lt_succ (by simpa [walkRows] using hj)
      have hmem :=
        List.get_mem (walkRows c dryRun limit (sum + (c.datasetSize idx : Int)) rest) n hj'
      exact walkRows_cumSum_ge c dryRun limit rest _ _ hmem
    | Nat.succ m, Nat.succ n =>
      exact ih _ m n (Nat.lt_of_succ_lt_succ (by simpa [walkRows] using hi))
        (Nat.lt_of_succ_lt_succ (by simpa [walkRows] using hj))
        (Nat.le_of_succ_le_succ hij)

theorem walkRows_outcome_steady (c : Cluster) (dryRun : Bool) (limit : Int)
    (entries : List (String × IlmStep)) (sum : Int) (r : WalkRow)
    (hr : r ∈ walkRows c dryRun limit sum entries)
    (hmr : r.outcome = StepOutcome.moved ∨ r.outcome = StepOutcome.raced) :
    r.step.action = "complete" ∧ r.step.name = "complete" := by
  have h := (walkRows_mem_spec c dryRun limit entries sum r hr).2
  by_cases h1 : limit < r.cumSum
  · simp only [h1, if_true] at h
    by_cases h2 : r.step.action = "complete" ∧ r.step.name = "complete"
    · exact h2
    · simp only [h2, if_false] at h
      rw [h] at hmr
      rcases hmr with h3 | h3 <;> exact absurd h3 (by simp)
  · simp only [h1, if_false] at h
    rw [h] at hmr
    rcases hmr with h3 | h3 <;> exact absurd h3 (by simp)

theorem walkRows_nonSteady (c : Cluster) (dryRun : Bool) (limit : Int)
    (entries : List (String × IlmStep)) (sum : Int) (r : WalkRow)
    (hr : r ∈ walkRows c dryRun limit sum entries)
    (h1 : limit < r.cumSum)
    (h2 : ¬(r.step.action = "complete" ∧ r.step.name = "complete")) :
    r.outcome = StepOutcome.nonSteady := by
  have h := (walkRows_mem_spec c dryRun limit entries sum r hr).2
  simp only [h1, if_true, h2, if_false] at h
  exact h

theorem mem_issuedMoves (next : String) (rows : List WalkRow) (cmd : MoveCmd)
    (h : cmd ∈ issuedMoves next rows) :
    ∃ r, r ∈ rows ∧ cmd.current_step = r.step ∧
      (r.outcome = StepOutcome.moved ∨ r.outcome = StepOutcome.raced) := by
  obtain ⟨r, hr, heq⟩ := List.mem_filterMap.mp h
  refine ⟨r, hr, ?_⟩
  rcases ho : r.outcome with _ | _ | _ | _ | _ <;> rw [ho] at heq
  · exact absurd heq (by simp)
  · injection heq with h2
    subst h2
    exact ⟨rfl, Or.inl rfl⟩
  · injection heq with h2
    subst h2
    exact ⟨rfl, Or.inr rfl⟩
  · exact absurd heq (by simp)
  · exact absurd heq (by simp)

theorem walkRows_dry_outcome (c : Cluster) (limit : Int)
    (entries : List (String × IlmStep)) (sum : Int) (r : WalkRow)
    (hr : r ∈ walkRows c true limit sum entries) :
    r.outcome ≠ StepOutcome.moved ∧ r.outcome ≠ StepOutcome.raced := by
  have h := (walkRows_mem_spec c true limit entries sum r hr).2
  by_cases h1 : limit < r.cumSum
  · simp only [h1, if_true] at h
    by_cases h2 : r.step.action = "complete" ∧ r.step.name = "complete"
    · simp only [h2, if_true] at h
      rw [h]
      exact ⟨by simp, by simp⟩
    · simp only [h2, if_false] at h
      rw [h]
      exact ⟨by simp, by simp⟩
  · simp only [h1, if_false] at h
    rw [h]
    exact ⟨by simp, by simp⟩

theorem walkRows_dry_noMoves (c : Cluster) (limit : Int) (next : String)
    (entries : List (String × IlmStep)) (sum : Int) :
    issuedMoves next (walkRows c true limit sum entries) = [] := by
  simp only [issuedMoves]
  rw [List.filterMap_eq_nil_iff]
  intro r hr
  obtain ⟨hm, hrc⟩ := walkRows_dry_outcome c limit entries sum r hr
  rcases ho : r.outcome with _ | _ | _ | _ | _
  · rfl
  · exact absurd ho hm
  · exact absurd ho hrc
  · rfl
  · rfl

theorem walkRows_shape_dry (c : Cluster) (limit : Int) :
    ∀ (entries : List (String × IlmStep)) (sum : Int),
      (walkRows c true limit sum entries).map WalkRow.shape
        = (walkRows c false limit sum entries).map WalkRow.shape := by
  intro entries
  induction entries with
  | nil => intro sum; rfl
  | cons e rest ih =>
    intro sum
    obtain ⟨idx, st⟩ := e
    simp only [walkRows, List.map_cons, ih]
    congr 1
    simp only [WalkRow.shape]
    by_cases h1 : limit < sum + (c.datasetSize idx : Int)
    · by_cases h2 : st.action = "complete" ∧ st.name = "complete"
      · by_cases h3 : c.moveOk idx = true
        · simp [h1, h2, h3, StepOutcome.decision]
        · simp [h1, h2, h3, StepOutcome.decision]
      · simp [h1, h2, StepOutcome.decision]
    · simp [h1, StepOutcome.decision]

theorem walkRows_shape_moveOk (c : Cluster) (f : String → Bool) (dryRun : Bool)
    (limit : Int) :
    ∀ (entries : List (String × IlmStep)) (sum : Int),
      (walkRows { c with moveOk := f } dryRun limit sum entries).map WalkRow.shape
        = (walkRows c dryRun limit sum entries).map WalkRow.shape := by
  intro entries
  induction entries with
  | nil => intro sum; rfl
  | cons e rest ih =>
    intro sum
    obtain ⟨idx, st⟩ := e
    simp only [walkRows, List.map_cons, ih]
    congr 1
    simp only [WalkRow.shape]
    by_cases h1 : limit < sum + (c.datasetSize idx : Int)
    · by_cases h2 : st.action = "complete" ∧ st.name = "complete"
      · cases dryRun
        · by_cases h3 : f idx = true <;> by_cases h4 : c.moveOk idx = true <;>
            simp [h1, h2, h3, h4, StepOutcome.decision]
        · simp [h1, h2, StepOutcome.decision]
      · simp [h1, h2, StepOutcome.decision]
    · simp [h1, StepOutcome.decision]

theorem walkRows_moves_moveOk (c : Cluster) (f : String → Bool) (dryRun : Bool)
    (limit : Int) (next : String) :
    ∀ (entries : List (String × IlmStep)) (sum : Int),
      issuedMoves next (walkRows { c with moveOk := f } dryRun limit sum entries)
        = issuedMoves next (walkRows c dryRun limit sum entries) := by
  intro entries
  induction entries with
  | nil => intro sum; rfl
  | cons e rest ih =>
    intro sum
    obtain ⟨idx, st⟩ := e
    simp only [walkRows, issuedMoves, List.filterMap_cons] at ih ⊢
    by_cases h1 : limit < sum + (c.datasetSize idx : Int)
    · by_cases h2 : st.action = "complete" ∧ st.name = "complete"
      · cases dryRun
        · by_cases h3 : f idx = true <;> by_cases h4 : c.moveOk idx = true <;>
            simp only [h1, h2, h3, h4, if_true, if_false, ite_true, ite_false] <;>
            simp [ih]
        · simp only [h1, h2, if_true, ite_true] <;> simp [ih]
      · simp only [h1, h2, if_true, if_false, ite_true, ite_false] <;> simp [ih]
    · simp only [h1, if_false, ite_false] <;> simp [ih]

theorem walkRows_indexPrivs (c : Cluster) (p : List String → Bool) (dryRun : Bool)
    (limit : Int) :
    ∀ (entries : List (String × IlmStep)) (sum : Int),
      walkRows { c with indexPrivsOk := p } dryRun limit sum entries
        = walkRows c dryRun limit sum entries := by
  intro entries
  induction entries with
  | nil => intro sum; rfl
  | cons e rest ih =>
    intro sum
    obtain ⟨idx, st⟩ := e
    simp only [walkRows]
    exact congrArg (List.cons _) (ih _)

theorem check_lifecycle_phase_shape_dry (c : Cluster) (limit : Int)
    (entries : List (String × IlmStep)) :
    (check_lifecycle_phase c true limit entries).map WalkRow.shape
      = (check_lifecycle_phase c false limit entries).map WalkRow.shape :=
  walkRows_shape_dry c limit _ 0

theorem check_lifecycle_phase_dry_noMoves (c : Cluster) (limit : Int)
    (next : String) (entries : List (String × IlmStep)) :
    issuedMoves next (check_lifecycle_phase c true limit entries) = [] :=
  walkRows_dry_noMoves c limit next _ 0

theorem check_lifecycle_phase_shape_moveOk (c : Cluster) (f : String → Bool)
    (dryRun : Bool) (limit : Int) (entries : List (String × IlmStep)) :
    (check_lifecycle_phase { c with moveOk := f } dryRun limit entries).map WalkRow.shape
      = (check_lifecycle_phase c dryRun limit entries).map WalkRow.shape :=
  walkRows_shape_moveOk c f dryRun limit _ 0

theorem check_lifecycle_phase_moves_moveOk (c : Cluster) (f : String → Bool)
    (dryRun : Bool) (limit : Int) (next : String)
    (entries : List (String × IlmStep)) :
    issuedMoves next (check_lifecycle_phase { c with moveOk := f } dryRun limit entries)
      = issuedMoves next (check_lifecycle_phase c dryRun limit entries) :=
  walkRows_moves_moveOk c f dryRun limit next _ 0

theorem check_lifecycle_phase_indexPrivs (c : Cluster) (p : List String → Bool)
    (dryRun : Bool) (limit : Int) (entries : List (String × IlmStep)) :
    check_lifecycle_phase { c with indexPrivsOk := p } dryRun limit entries
      = check_lifecycle_phase c dryRun limit entries :=
  walkRows_indexPrivs c p dryRun limit _ 0

theorem check_phases_shape_moveOk (c : Cluster) (f : String → Bool) (dryRun : Bool)
    (allP : List (String × PhaseDef)) (groups : List (String × List (String × IlmStep))) :
    ∀ phases : List (String × PhaseDef),
      Except.map (List.map PhaseReport.shape)
          (check_phases { c with moveOk := f } dryRun allP groups phases)
        = Except.map (List.map PhaseReport.shape)
            (check_phases c dryRun allP groups phases) := by
  intro phases
  induction phases with
  | nil => rfl
  | cons p rest ih =>
    obtain ⟨pn, pd⟩ := p
    rcases hl : pd.limits with _ | lim
    · simp only [check_phases, hl]
      exact ih
    · simp only [check_phases, hl]
      rcases hn : get_next_lifecycle_phase allP pn with e | nxt
      · rfl
      · rcases h1 : check_phases { c with moveOk := f } dryRun allP groups rest with e1 | l1 <;>
          rcases h2 : check_phases c dryRun allP groups rest with e2 | l2 <;>
          rw [h1, h2] at ih <;>
          simp only [Except.map] at ih ⊢
        · exact ih
        · exact absurd ih (by simp)
        · exact absurd ih (by simp)
        · injection ih with ih'
          simp only [List.map_cons, PhaseReport.shape, ih']
          rw [check_lifecycle_phase_shape_moveOk]

theorem check_phases_indexPrivs (c : Cluster) (p : List String → Bool) (dryRun : Bool)
    (allP : List (String × PhaseDef)) (groups : List (String × List (String × IlmStep))) :
    ∀ phases : List (String × PhaseDef),
      check_phases { c with indexPrivsOk := p } dryRun allP groups phases
        = check_phases c dryRun allP groups phases := by
  intro phases
  induction phases with
  | nil => rfl
  | cons q rest ih =>
    obtain ⟨pn, pd⟩ := q
    rcases hl : pd.limits with _ | lim
    · simp only [check_phases, hl]
      exact ih
    · simp only [check_phases, hl]
      rw [check_lifecycle_phase_indexPrivs, ih]

theorem check_phases_dry_reportMoves (c : Cluster)
    (allP : List (String × PhaseDef)) (groups : List (String × List (String × IlmStep))) :
    ∀ (phases : List (String × PhaseDef)) (rs : List PhaseReport),
      check_phases c true allP groups phases = .ok rs →
      ∀ rep ∈ rs, reportMoves rep = [] := by
  intro phases
  induction phases with
  | nil =>
    intro rs h rep hrep
    simp only [check_phases] at h
    injection h with h'
    rw [← h'] at hrep
    simp at hrep
  | cons q rest ih =>
    intro rs h rep hrep
    obtain ⟨pn, pd⟩ := q
    rcases hl : pd.limits with _ | lim
    · simp only [check_phases, hl] at h
      exact ih rs h rep hrep
    · simp only [check_phases, hl] at h
      rcases hn : get_next_lifecycle_phase allP pn with e | nxt <;> rw [hn] at h
      · exact absurd h (by simp)
      · rcases hrec : check_phases c true allP groups rest with e1 | more <;> rw [hrec] at h
        · exact absurd h (by simp)
        · injection h with h'
          rw [← h'] at hrep
          rcases List.mem_cons.mp hrep with h3 | h3
          · rw [h3]
            simp only [reportMoves]
            exact check_lifecycle_phase_dry_noMoves c lim.max_size_bytes nxt _
          · exact ih more hrec rep h3

theorem check_phases_phase_mem (c : Cluster) (dryRun : Bool)
    (allP : List (String × PhaseDef)) (groups : List (String × List (String × IlmStep))) :
    ∀ (phases : List (String × PhaseDef)) (rs : List PhaseReport),
      check_phases c dryRun allP groups phases = .ok rs →
      ∀ rep ∈ rs, ∃ q, q ∈ phases ∧ rep.phase = q.1 := by
  intro phases
  induction phases with
  | nil =>
    intro rs h rep hrep
    simp only [check_phases] at h
    injection h with h'
    rw [← h'] at hrep
    simp at hrep
  | cons q rest ih =>
    intro rs h rep hrep
    obtain ⟨pn, pd⟩ := q
    rcases hl : pd.limits with _ | lim
    · simp only [check_phases, hl] at h
      obtain ⟨q', hq', hph⟩ := ih rs h rep hrep
      exact ⟨q', List.mem_cons_of_mem _ hq', hph⟩
    · simp only [check_phases, hl] at h
      rcases hn : get_next_lifecycle_phase allP pn with e | nxt <;> rw [hn] at h
      · exact absurd h (by simp)
      · rcases hrec : check_phases c dryRun allP groups rest with e1 | more <;> rw [hrec] at h
        · exact absurd h (by simp)
        · injection h with h'
          rw [← h'] at hrep
          rcases List.mem_cons.mp hrep with h3 | h3
          · exact ⟨(pn, pd), List.mem_cons_self _ _, by rw [h3]⟩
          · obtain ⟨q', hq', hph⟩ := ih more hrec rep h3
            exact ⟨q', List.mem_cons_of_mem _ hq', hph⟩

theorem check_lifecycle_shape_moveOk (c : Cluster) (f : String → Bool)
    (dryRun : Bool) (lc : RawLifecycle) :
    Except.map (List.map PhaseReport.shape)
        (check_lifecycle { c with moveOk := f } dryRun lc)
      = Except.map (List.map PhaseReport.shape) (check_lifecycle c dryRun lc) := by
  have hpriv : check_index_privileges { c with moveOk := f } lc.in_use_by_indices
      = check_index_privileges c lc.in_use_by_indices := rfl
  have hgrp : get_indexes_in_phases { c with moveOk := f } lc.in_use_by_indices
      = get_indexes_in_phases c lc.in_use_by_indices := rfl
  simp only [check_lifecycle, hpriv, hgrp]
  rcases hp : (check_index_privileges c lc.in_use_by_indices).2 with e | u
  · rfl
  · exact check_phases_shape_moveOk c f dryRun _ _ _

theorem check_lifecycle_indexPrivs_empty (c : Cluster) (p : List String → Bool)
    (dryRun : Bool) (lc : RawLifecycle) (h : lc.in_use_by_indices = []) :
    check_lifecycle { c with indexPrivsOk := p } dryRun lc
      = check_lifecycle c dryRun lc := by
  simp only [check_lifecycle, h, check_index_privileges, get_indexes_in_phases,
    List.foldl_nil]
  exact check_phases_indexPrivs c p dryRun _ _ _

theorem check_lifecycle_dry_moves (c : Cluster) (lc : RawLifecycle)
    (rs : List PhaseReport) (h : check_lifecycle c true lc = .ok rs) :
    ∀ rep ∈ rs, reportMoves rep = [] := by
  simp only [check_lifecycle] at h
  rcases hp : (check_index_privileges c lc.in_use_by_indices).2 with e | u <;> rw [hp] at h
  · exact absurd h (by simp)
  · exact check_phases_dry_reportMoves c _ _ _ rs h

theorem check_lifecycle_no_delete (c : Cluster) (dryRun : Bool) (lc : RawLifecycle) :
    "delete" ∉ phasesChecked (check_lifecycle c dryRun lc) := by
  intro hmem
  simp only [phasesChecked] at hmem
  rcases hr : check_lifecycle c dryRun lc with e | rs <;> rw [hr] at hmem
  · simp at hmem
  · obtain ⟨rep, hrep, hph⟩ := List.mem_map.mp hmem
    simp only [check_lifecycle] at hr
    rcases hp : (check_index_privileges c lc.in_use_by_indices).2 with e | u <;> rw [hp] at hr
    · exact absurd hr (by simp)
    · obtain ⟨q, hq, hqph⟩ := check_phases_phase_mem c dryRun _ _ _ rs hr rep hrep
      rw [mem_sortDescBy] at hq
      have hf := (List.mem_filter.mp hq).2
      rw [← hqph, hph] at hf
      exact absurd hf (by decide)

theorem getLifecyclesGo_fst :
    ∀ (l : List (String × RawLifecycle)) (ls : List (String × (List String × RawLifecycle))),
      getLifecyclesGo l = .ok ls → ls.map Prod.fst = l.map Prod.fst := by
  intro l
  induction l with
  | nil =>
    intro ls h
    injection h with h'
    rw [← h']
    rfl
  | cons p ps ih =>
    intro ls h
    simp only [getLifecyclesGo] at h
    rcases hd : decode_lifecycle_phases p.1 p.2 with e | wl <;> rw [hd] at h
    · exact absurd h (by simp)
    · rcases hr : getLifecyclesGo ps with e | rest <;> rw [hr] at h
      · exact absurd h (by simp)
      · injection h with h'
        rw [← h']
        simp [ih rest hr]

theorem updatePhaseLimits_fst_data (phases : List (String × PhaseDef))
    (phase : String) (l : PhaseLimits) :
    (updatePhaseLimits phases phase l).map (fun q => (q.1, q.2.data))
      = phases.map (fun q => (q.1, q.2.data)) := by
  induction phases with
  | nil => rfl
  | cons q qs ih =>
    simp only [updatePhaseLimits, List.map_cons] at ih ⊢
    by_cases h : q.1 = phase <;> simp [h, ih]

theorem updatePhaseLimits_any (phases : List (String × PhaseDef))
    (phase : String) (l : PhaseLimits) (p : String) :
    ((updatePhaseLimits phases phase l).any fun q => q.1 = p)
      = (phases.any fun q => q.1 = p) := by
  induction phases with
  | nil => rfl
  | cons q qs ih =>
    simp only [updatePhaseLimits, List.any_cons] at ih ⊢
    by_cases h : q.1 = phase <;> simp [h, ih]

theorem decodeGo_spec (name : String) :
    ∀ (entries : List (String × LimiterPhaseVal)) (warns : List String)
      (phases : List (String × PhaseDef)),
      (∀ e ∈ entries, limiterEntryOk e.2 = true) →
      ∃ w ph, decodeGo name entries warns phases = .ok (w, ph) ∧
        (∀ x ∈ warns, x ∈ w) ∧
        (∀ phase v, (phase, v) ∈ entries →
           (phases.any fun q => q.1 = phase) = false →
           ("lifecycle " ++ name ++ " has no phase " ++ phase ++ " but limits") ∈ w) ∧
        ph.map (fun q => (q.1, q.2.data)) = phases.map (fun q => (q.1, q.2.data)) ∧
        (∀ p, (ph.any fun q => q.1 = p) = (phases.any fun q => q.1 = p)) := by
  intro entries
  induction entries with
  | nil =>
    intro warns phases _
    exact ⟨warns, phases, rfl, fun x hx => hx, by simp, rfl, fun p => rfl⟩
  | cons e rest ih =>
    intro warns phases hok
    obtain ⟨phase, v⟩ := e
    have hv : limiterEntryOk v = true := hok _ (List.mem_cons_self _ _)
    have hrest : ∀ e ∈ rest, limiterEntryOk e.2 = true :=
      fun e he => hok e (List.mem_cons_of_mem _ he)
    by_cases hmatch : (phases.any fun q => q.1 = phase) = true
    · rcases hms : v.max_size with _ | s
      · rw [limiterEntryOk, hms] at hv
        simp at hv
      · have hv2 : v.extraKeys = false ∧ truthyBytes s = true := by
          rw [limiterEntryOk, hms] at hv
          simpa using hv
        have hts : truthyBytes s = true := hv2.2
        rcases hcv : convert_size_to_bytes s with _ | b
        · rw [truthyBytes, hcv] at hts
          simp at hts
        · obtain ⟨w, ph, heq, hsub, hwarn, hdata, hany⟩ :=
            ih warns (updatePhaseLimits phases phase ⟨s, b⟩) hrest
          refine ⟨w, ph, ?_, hsub, ?_, ?_, ?_⟩
          · simp only [decodeGo, hmatch, hms, hcv, if_true]
            exact heq
          · intro phase2 v2 hmem hno
            rcases List.mem_cons.mp hmem with h3 | h3
            · exfalso
              have h4 : phase2 = phase := congrArg Prod.fst h3
              rw [h4] at hno
              rw [hno] at hmatch
              exact absurd hmatch (by simp)
            · apply hwarn phase2 v2 h3
              rw [updatePhaseLimits_any]
              exact hno
          · rw [hdata, updatePhaseLimits_fst_data]
          · intro p
            rw [hany p, updatePhaseLimits_any]
    · have hmf : (phases.any fun q => q.1 = phase) = false :=
        Bool.eq_false_iff.mpr hmatch
      obtain ⟨w, ph, heq, hsub, hwarn, hdata, hany⟩ :=
        ih (warns ++ ["lifecycle " ++ name ++ " has no phase " ++ phase ++ " but limits"])
          phases hrest
      refine ⟨w, ph, ?_, ?_, ?_, hdata, hany⟩
      · simp only [decodeGo, hmf]
        simp only [Bool.false_eq_true, if_false]
        exact heq
      · intro x hx
        exact hsub x (List.mem_append_left _ hx)
      · intro phase2 v2 hmem hno
        rcases List.mem_cons.mp hmem with h3 | h3
        · have h4 : phase2 = phase := congrArg Prod.fst h3
          rw [h4]
          exact hsub _ (List.mem_append_right _ (by simp))
        · exact hwarn phase2 v2 h3 hno

theorem is_limited_entries_ok (lc : RawLifecycle) (m : RawMeta) (lim : RawLimiter)
    (entries : List (String × LimiterPhaseVal))
    (hm : lc.policy.meta = some m) (hl : m.limiter = some lim)
    (hp : lim.phasesField = some entries)
    (hv : is_lifecycle_limited lc = true) :
    ∀ e ∈ entries, limiterEntryOk e.2 = true := by
  rw [is_lifecycle_limited, hm] at hv
  simp only [hl, hp, Bool.and_eq_true] at hv
  obtain ⟨h1, h2, h3, h4⟩ := hv
  intro e he
  exact List.all_eq_true.mp h4 e he

theorem run_limits_shape_moveOk (c : Cluster) (f : String → Bool) (dryRun : Bool)
    (pols : List (String × RawLifecycle)) :
    runShape (run_limits { c with moveOk := f } dryRun pols)
      = runShape (run_limits c dryRun pols) := by
  have hc : check_cluster_privileges { c with moveOk := f } = check_cluster_privileges c := rfl
  simp only [run_limits, hc]
  rcases hcp : check_cluster_privileges c with e | u
  · rfl
  · rcases hg : get_lifecycles pols with e | ls
    · rfl
    · simp only [runShape, Except.map, List.map_map]
      congr 1
      apply List.map_congr_left
      intro x hx
      simp only [Function.comp_apply]
      exact congrArg (fun r => (x.1, r)) (check_lifecycle_shape_moveOk c f dryRun x.2.2)

theorem run_limits_dry_noMoves (c : Cluster) (pols : List (String × RawLifecycle)) :
    runMoves (run_limits c true pols) = [] := by
  simp only [run_limits]
  rcases hcp : check_cluster_privileges c with e | u
  · rfl
  · rcases hg : get_lifecycles pols with e | ls
    · rfl
    · simp only [runMoves, List.map_map]
      rw [List.flatten_eq_nil_iff]
      intro l hl
      obtain ⟨y, hy, hyl⟩ := List.mem_map.mp hl
      simp only [Function.comp_apply] at hyl
      rcases hc : check_lifecycle c true y.2.2 with e | rs <;> rw [hc] at hyl
      · exact hyl.symm
      · rw [← hyl, List.flatten_eq_nil_iff]
        intro m hm
        obtain ⟨rep, hrep, hrm⟩ := List.mem_map.mp hm
        rw [← hrm]
        exact check_lifecycle_dry_moves c y.2.2 rs hc rep hrep

theorem run_limits_cons (c : Cluster) (dryRun : Bool) (p : String × RawLifecycle)
    (pols : List (String × RawLifecycle)) (w : List String) (lc : RawLifecycle)
    (ls : List (String × Except String (List PhaseReport)))
    (hlim : is_lifecycle_limited p.2 = true)
    (hdec : decode_lifecycle_phases p.1 p.2 = .ok (w, lc))
    (hrun : run_limits c dryRun pols = .ok ls) :
    run_limits c dryRun (p :: pols) = .ok ((p.1, check_lifecycle c dryRun lc) :: ls) := by
  simp only [run_limits] at hrun ⊢
  rcases hcp : check_cluster_privileges c with e | u
  · rw [hcp] at hrun
    exact absurd hrun (by simp)
  · rw [hcp] at hrun
    simp only at hrun
    simp only [get_lifecycles, List.filter_cons, hlim, if_true, getLifecyclesGo, hdec]
    simp only [get_lifecycles] at hrun
    rcases hg : getLifecyclesGo (pols.filter fun q => is_lifecycle_limited q.2) with e | gs
    · rw [hg] at hrun
      exact absurd hrun (by simp)
    · rw [hg] at hrun
      simp only at hrun
      injection hrun with hrun2
      rw [← hrun2]
      rfl

/-- Claim C1: in `check_lifecycle_phase` the indexes are walked in descending
lifecycle-date order with a running cumulative size to which each index's
dataset size is added before it is evaluated; an index is an eviction
candidate exactly when the running sum strictly exceeds the limit (reaching
it exactly does not trigger), and once one index is a candidate every later
(older) index of the walk is one too.  For A(5, t3), B(5, t2), C(5, t1) and
limit 8 the sums are 5, 10, 15, A is not a candidate and B, C are. -/
theorem C1_phase_walk_candidacy :
    (∀ (c : Cluster) (dryRun : Bool) (limit : Int) (entries : List (String × IlmStep))
       (r : WalkRow), r ∈ check_lifecycle_phase c dryRun limit entries →
       (isCandidate r.outcome = true ↔ limit < r.cumSum)) ∧
    (∀ (c : Cluster) (dryRun : Bool) (limit : Int) (entries : List (String × IlmStep))
       (i j : Nat) (hi : i < (check_lifecycle_phase c dryRun limit entries).length)
       (hj : j < (check_lifecycle_phase c dryRun limit entries).length),
       i ≤ j →
       isCandidate ((check_lifecycle_phase c dryRun limit entries).get ⟨i, hi⟩).outcome = true →
       isCandidate ((check_lifecycle_phase c dryRun limit entries).get ⟨j, hj⟩).outcome = true) ∧
    ((check_lifecycle_phase sampleCluster false 8 sampleEntries).map WalkRow.index
        = ["A", "B", "C"] ∧
     (check_lifecycle_phase sampleCluster false 8 sampleEntries).map WalkRow.cumSum
        = [5, 10, 15] ∧
     (check_lifecycle_phase sampleCluster false 8 sampleEntries).map
        (fun r => isCandidate r.outcome) = [false, true, true] ∧
     (check_lifecycle_phase sampleCluster false 10 sampleEntries).map
        (fun r => isCandidate r.outcome) = [false, false, true]) := by
  refine ⟨?_, ?_, by decide, by decide, by decide, by decide⟩
  · intro c dryRun limit entries r hr
    exact walkRows_candidate_iff c dryRun limit _ 0 r hr
  · intro c dryRun limit entries i j hi hj hij hcand
    have hmono := walkRows_cumSum_mono c dryRun limit
      (sortDescBy (fun e => c.lifecycleDate e.1) entries) 0 i j hi hj hij
    have hmemi := List.get_mem (check_lifecycle_phase c dryRun limit entries) i hi
    have hmemj := List.get_mem (check_lifecycle_phase c dryRun limit entries) j hj
    have hlt := (walkRows_candidate_iff c dryRun limit _ 0 _ hmemi).mp hcand
    exact (walkRows_candidate_iff c dryRun limit _ 0 _ hmemj).mpr (lt_of_lt_of_le hlt hmono)

/-- Witness for C1 at the worked example: index B (position 1) is a
candidate at limit 8, so the theorem forces index C (position 2) to be a
candidate as well. -/
theorem C1_phase_walk_candidacy_witness :
    isCandidate (((check_lifecycle_phase sampleCluster false 8 sampleEntries).get
      ⟨2, by decide⟩).outcome) = true :=
  C1_phase_walk_candidacy.2.1 sampleCluster false 8 sampleEntries 1 2 (by decide) (by decide)
    (by decide) (by decide)

/-- Claim C2 counterexample: in the policy with limited hot and warm phases
and nothing after warm, the missing successor of warm raises a `ValueError`
that aborts the whole `check_lifecycle` call, so the sibling limited phase
hot is never enforced — contradicting the claim that the other limited
phases of the same policy still proceed. -/
theorem C2_unreachable_successor_counterexample :
    check_lifecycle sampleCluster false decodedPolC2
        = Except.error "cannot determine successor of phase warm" ∧
    (decodedPolC2.policy.phases.any fun q => q.1 = "hot" && q.2.limits.isSome) = true ∧
    phasesChecked (check_lifecycle sampleCluster false decodedPolC2) = [] :=
  ⟨by decide, by decide, by decide⟩

/-- Claim C2, amended: a limited phase with no configured later phase makes
the phase's successor lookup raise; the error propagates out of
`check_lifecycle`, aborting that phase and the policy's remaining phases,
and is caught and logged per policy inside `run_limits`, so every other
policy of the run is still processed with its own result unchanged. -/
theorem C2_unreachable_successor_amended :
    (∀ (c : Cluster) (dryRun : Bool) (p : String × RawLifecycle)
       (pols : List (String × RawLifecycle)) (w : List String) (lc : RawLifecycle)
       (ls : List (String × Except String (List PhaseReport))),
       is_lifecycle_limited p.2 = true →
       decode_lifecycle_phases p.1 p.2 = .ok (w, lc) →
       run_limits c dryRun pols = .ok ls →
       run_limits c dryRun (p :: pols) = .ok ((p.1, check_lifecycle c dryRun lc) :: ls)) ∧
    run_limits sampleCluster false [("p2", rawPolC2), ("pok", rawPolOk)]
      = .ok [("p2", .error "cannot determine successor of phase warm"),
             ("pok", .ok [{ phase := "hot", next := "delete", rows := [] }])] :=
  ⟨fun c d p pols w lc ls h1 h2 h3 => run_limits_cons c d p pols w lc ls h1 h2 h3, by decide⟩

/-- Witness for the amended C2: prepending the broken policy to a
well-formed one leaves the latter's result untouched while the broken
policy contributes its own per-policy error entry. -/
theorem C2_unreachable_successor_witness :
    run_limits sampleCluster false [("p2", rawPolC2), ("pok", rawPolOk)]
      = .ok (("p2", check_lifecycle sampleCluster false decodedPolC2) ::
             [("pok", .ok [{ phase := "hot", next := "delete", rows := [] }])]) :=
  C2_unreachable_successor_amended.1 sampleCluster false ("p2", rawPolC2)
    [("pok", rawPolOk)] [] decodedPolC2
    [("pok", .ok [{ phase := "hot", next := "delete", rows := [] }])]
    (by decide) (by decide) (by decide)

/-- Claim C3: a phase-transition command is issued only for an index whose
observed step is the terminal complete/complete state; a candidate in any
other step gets the non-steady outcome (the logged error) and the walk
still produces a row for every index, so later candidates are still
evaluated and may be advanced. -/
theorem C3_steady_step_safety :
    (∀ (c : Cluster) (dryRun : Bool) (limit : Int) (next : String)
       (entries : List (String × IlmStep)) (cmd : MoveCmd),
       cmd ∈ issuedMoves next (check_lifecycle_phase c dryRun limit entries) →
       cmd.current_step.action = "complete" ∧ cmd.current_step.name = "complete") ∧
    (∀ (c : Cluster) (dryRun : Bool) (limit : Int) (entries : List (String × IlmStep)),
       (check_lifecycle_phase c dryRun limit entries).length = entries.length) ∧
    (∀ (c : Cluster) (dryRun : Bool) (limit : Int) (entries : List (String × IlmStep))
       (r : WalkRow), r ∈ check_lifecycle_phase c dryRun limit entries →
       limit < r.cumSum →
       ¬(r.step.action = "complete" ∧ r.step.name = "complete") →
       r.outcome = StepOutcome.nonSteady) := by
  refine ⟨?_, ?_, ?_⟩
  · intro c dryRun limit next entries cmd hcmd
    obtain ⟨r, hr, hstep, hmr⟩ := mem_issuedMoves next _ cmd hcmd
    rw [hstep]
    exact walkRows_outcome_steady c dryRun limit _ 0 r hr hmr
  · intro c dryRun limit entries
    exact check_lifecycle_phase_length c dryRun limit entries
  · intro c dryRun limit entries r hr h1 h2
    exact walkRows_nonSteady c dryRun limit _ 0 r hr h1 h2

/-- Witness for C3: with a non-steady newer candidate N and a steady older
candidate S, the only command issued is for S and its step is
complete/complete — the walk continued past the rejected candidate. -/
theorem C3_steady_step_safety_witness :
    (⟨"S", steadyStep "warm", "cold"⟩ : MoveCmd).current_step.action = "complete" ∧
    (⟨"S", steadyStep "warm", "cold"⟩ : MoveCmd).current_step.name = "complete" :=
  C3_steady_step_safety.1 mixedCluster false 0 "cold" mixedEntries
    ⟨"S", steadyStep "warm", "cold"⟩ (by decide)

/-- Claim C4: the terminal phase (delete, last in the fixed order) is never
enforced: `check_lifecycle` never reaches `check_lifecycle_phase` for it,
even when the policy configures a limit on it, as in the concrete policy
whose delete phase carries a limits object yet only hot is checked. -/
theorem C4_terminal_phase_never_enforced :
    (∀ (c : Cluster) (dryRun : Bool) (lc : RawLifecycle),
       "delete" ∉ phasesChecked (check_lifecycle c dryRun lc)) ∧
    ((decodedPolDeleteLim.policy.phases.any fun q =>
        q.1 = "delete" && q.2.limits.isSome) = true ∧
     phasesChecked (check_lifecycle sampleCluster false decodedPolDeleteLim)
        = ["hot"]) :=
  ⟨check_lifecycle_no_delete, by decide, by decide⟩

/-- Claim C5: rejection of a transition command by the cluster (a concurrent
ILM move or delete) is caught, logged as the raced outcome, and changes
nothing else: the decisions, the set of issued commands and the whole run
result are the same for every rejection oracle, so remaining indices,
phases and policies are all still processed. -/
theorem C5_race_tolerance :
    (∀ (c : Cluster) (f : String → Bool) (dryRun : Bool) (limit : Int) (next : String)
       (entries : List (String × IlmStep)),
       issuedMoves next (check_lifecycle_phase { c with moveOk := f } dryRun limit entries)
         = issuedMoves next (check_lifecycle_phase c dryRun limit entries)) ∧
    (∀ (c : Cluster) (f : String → Bool) (dryRun : Bool) (limit : Int)
       (entries : List (String × IlmStep)),
       (check_lifecycle_phase { c with moveOk := f } dryRun limit entries).map WalkRow.shape
         = (check_lifecycle_phase c dryRun limit entries).map WalkRow.shape) ∧
    (∀ (c : Cluster) (f : String → Bool) (dryRun : Bool)
       (pols : List (String × RawLifecycle)),
       runShape (run_limits { c with moveOk := f } dryRun pols)
         = runShape (run_limits c dryRun pols)) ∧
    (check_lifecycle_phase { sampleCluster with moveOk := fun _ => false } false 0
        [("A", steadyStep "warm")]).map WalkRow.outcome = [StepOutcome.raced] := by
  refine ⟨?_, ?_, ?_, by decide⟩
  · intro c f dryRun limit next entries
    exact check_lifecycle_phase_moves_moveOk c f dryRun limit next entries
  · intro c f dryRun limit entries
    exact check_lifecycle_phase_shape_moveOk c f dryRun limit entries
  · intro c f dryRun pols
    exact run_limits_shape_moveOk c f dryRun pols

/-- Claim C6: `convert_size_to_bytes` parses a fractional prefix with a
case-insensitive suffix among kb, mb, gb, tb worth 1024^(i+1) bytes at
position i, and fails on every input whose lowercased form ends with none
of the four units — including inputs ending only in a bare b. -/
theorem C6_convert_size_to_bytes_spec :
    convert_size_to_bytes "1kb" = some 1024 ∧
    convert_size_to_bytes "1mb" = some 1048576 ∧
    convert_size_to_bytes "2.5gb" = some 2684354560 ∧
    convert_size_to_bytes "1gb" = some 1073741824 ∧
    convert_size_to_bytes "1tb" = some 1099511627776 ∧
    convert_size_to_bytes "1MB" = some 1048576 ∧
    convert_size_to_bytes "5xb" = none ∧
    (∀ s : String,
       pyEndsWith (pyLower s) "kb" = false → pyEndsWith (pyLower s) "mb" = false →
       pyEndsWith (pyLower s) "gb" = false → pyEndsWith (pyLower s) "tb" = false →
       convert_size_to_bytes s = none) := by
  refine ⟨by decide, by decide, by decide, by decide, by decide, by decide, by decide, ?_⟩
  intro s h1 h2 h3 h4
  simp only [convert_size_to_bytes, h1, h2, h3, h4]
  simp

/-- Witness for C6 at the suffix-free input 5b, which ends in a bare b and
is rejected. -/
theorem C6_convert_size_to_bytes_witness : convert_size_to_bytes "5b" = none :=
  C6_convert_size_to_bytes_spec.2.2.2.2.2.2.2 "5b" (by decide) (by decide) (by decide)
    (by decide)

/-- Claim C7: a policy without a well-formed limiter section is excluded
from the filtered policy set: dropping it leaves `get_lifecycles` unchanged
(no error is raised for it), and the names of the filtered set are exactly
the names of the policies that pass `is_lifecycle_limited`. -/
theorem C7_invalid_limiter_filtered :
    (∀ (p : String × RawLifecycle) (pols : List (String × RawLifecycle)),
       is_lifecycle_limited p.2 = false →
       get_lifecycles (p :: pols) = get_lifecycles pols) ∧
    (∀ (pols : List (String × RawLifecycle))
       (ls : List (String × (List String × RawLifecycle))),
       get_lifecycles pols = .ok ls →
       ls.map Prod.fst = (pols.filter fun p => is_lifecycle_limited p.2).map Prod.fst) ∧
    is_lifecycle_limited rawPolNoMeta = false ∧
    get_lifecycles [("bad", rawPolNoMeta), ("pok", rawPolOk)]
      = get_lifecycles [("pok", rawPolOk)] := by
  refine ⟨?_, ?_, by decide, by decide⟩
  · intro p pols h
    simp [get_lifecycles, List.filter_cons, h]
  · intro pols ls h
    exact getLifecyclesGo_fst _ ls h

/-- Witness for C7: a policy with no `_meta` contributes nothing to the
filtered set. -/
theorem C7_invalid_limiter_filtered_witness :
    get_lifecycles [("bad", rawPolNoMeta)] = get_lifecycles [] :=
  C7_invalid_limiter_filtered.1 ("bad", rawPolNoMeta) [] (by decide)

/-- Claim C8: a declared phase limit whose phase does not exist in the
policy's phase definitions produces the warning line and is dropped — no
phase of the decoded policy carries it, the phase names and phase bodies
are untouched, and decoding still succeeds so the run continues. -/
theorem C8_dangling_phase_limit :
    ∀ (nm phase : String) (v : LimiterPhaseVal) (lc : RawLifecycle) (m : RawMeta)
      (lim : RawLimiter) (entries : List (String × LimiterPhaseVal)),
      lc.policy.meta = some m → m.limiter = some lim → lim.phasesField = some entries →
      is_lifecycle_limited lc = true →
      (phase, v) ∈ entries →
      (lc.policy.phases.any fun q => q.1 = phase) = false →
      ∃ w lc2, decode_lifecycle_phases nm lc = .ok (w, lc2) ∧
        ("lifecycle " ++ nm ++ " has no phase " ++ phase ++ " but limits") ∈ w ∧
        lc2.policy.phases.map (fun q => (q.1, q.2.data))
          = lc.policy.phases.map (fun q => (q.1, q.2.data)) ∧
        (lc2.policy.phases.any fun q => q.1 = phase) = false ∧
        lc2.in_use_by_indices = lc.in_use_by_indices := by
  intro nm phase v lc m lim entries hm hl hp hval hmem hno
  have hok := is_limited_entries_ok lc m lim entries hm hl hp hval
  obtain ⟨w, ph, heq, hsub, hwarn, hdata, hany⟩ :=
    decodeGo_spec nm entries [] lc.policy.phases hok
  refine ⟨w, { lc with policy := { lc.policy with phases := ph } }, ?_, ?_, ?_, ?_, rfl⟩
  · simp only [decode_lifecycle_phases, hm, hl, hp, heq]
  · exact hwarn phase v hmem hno
  · exact hdata
  · rw [hany phase]
    exact hno

/-- Witness for C8 at a policy declaring a limit on the missing cold phase:
the warning appears, the phases keep their names and bodies, and decoding
succeeds. -/
theorem C8_dangling_phase_limit_witness :
    ∃ w lc2, decode_lifecycle_phases "pd" rawPolDangling = .ok (w, lc2) ∧
      ("lifecycle " ++ "pd" ++ " has no phase " ++ "cold" ++ " but limits") ∈ w ∧
      lc2.policy.phases.map (fun q => (q.1, q.2.data))
        = rawPolDangling.policy.phases.map (fun q => (q.1, q.2.data)) ∧
      (lc2.policy.phases.any fun q => q.1 = "cold") = false ∧
      lc2.in_use_by_indices = rawPolDangling.in_use_by_indices :=
  C8_dangling_phase_limit "pd" "cold" { max_size := some "1kb" } rawPolDangling
    { limiter := some { phasesField := some [("cold", { max_size := some "1kb" })] } }
    { phasesField := some [("cold", { max_size := some "1kb" })] }
    [("cold", { max_size := some "1kb" })]
    rfl rfl rfl (by decide) (by decide) (by decide)

/-- Claim C9: in dry-run mode the walk makes the same candidacy decisions
and produces the same decision log (same index order, usages, running sums
and decisions) as a normal run, but no phase-transition command is issued
anywhere in the run, so cluster lifecycle state is untouched. -/
theorem C9_dry_run_frame :
    (∀ (c : Cluster) (limit : Int) (entries : List (String × IlmStep)),
       (check_lifecycle_phase c true limit entries).map WalkRow.shape
         = (check_lifecycle_phase c false limit entries).map WalkRow.shape) ∧
    (∀ (c : Cluster) (limit : Int) (next : String) (entries : List (String × IlmStep)),
       issuedMoves next (check_lifecycle_phase c true limit entries) = []) ∧
    (∀ (c : Cluster) (pols : List (String × RawLifecycle)),
       runMoves (run_limits c true pols) = []) :=
  ⟨check_lifecycle_phase_shape_dry, check_lifecycle_phase_dry_noMoves, run_limits_dry_noMoves⟩

/-- Claim C10: for a policy whose governed index set is empty,
`check_index_privileges` performs no privilege query and succeeds, and the
whole policy check is independent of the index-privilege oracle, so the
policy is processed identically whatever privileges the principal holds. -/
theorem C10_empty_policy_privileges :
    ∀ (c : Cluster) (f : List String → Bool) (dryRun : Bool) (lc : RawLifecycle),
      lc.in_use_by_indices = [] →
      check_index_privileges c lc.in_use_by_indices = ([], Except.ok ()) ∧
      check_lifecycle { c with indexPrivsOk := f } dryRun lc
        = check_lifecycle c dryRun lc := by
  intro c f dryRun lc h
  refine ⟨?_, check_lifecycle_indexPrivs_empty c f dryRun lc h⟩
  rw [h]
  rfl

/-- Witness for C10 at a policy with no governed indices and an oracle that
denies every privilege: the result is unchanged. -/
theorem C10_empty_policy_privileges_witness :
    check_index_privileges sampleCluster decodedPolOk.in_use_by_indices
        = ([], Except.ok ()) ∧
    check_lifecycle { sampleCluster with indexPrivsOk := fun _ => false } false decodedPolOk
      = check_lifecycle sampleCluster false decodedPolOk :=
  C10_empty_policy_privileges sampleCluster (fun _ => false) false decodedPolOk rfl
